import Mathlib

/-!
# Verification of `generate_icons.py` (plaintextpanic icon generator)

Shallow embedding of the icon-generation pipeline:

* `create_squircle_mask` — the scalar double-loop mask generator, embedded as a
  per-pixel function (the Python code fills a `size × size` grid pixel by
  pixel; the grid is the function's graph on `x < size`, `y < size`).
* `create_squircle_mask_fast` — the numpy bulk-array path, embedded per-pixel.
* `apply_squircle_mask` — square-crop plus alpha compositing, over an explicit
  image type.
* `icon_sizes` / `generate_icon_set_outputs` — the fixed 10-entry catalog and
  the per-entry output name and pixel dimensions.
* `main_model` — the orchestration and error paths of `main`.

Numeric conventions: Python float arithmetic is modelled by exact rational
arithmetic (`ℚ`); the `smoothness` exponent (the integer 5 at every call
site) is modelled as a natural-number exponent.  Python's `int(...)` on the
nonnegative values that occur here is `Int.floor`, and numpy's
`astype(np.uint8)` is floor followed by reduction mod 2^8.
-/

/-- The anti-alias band width `0.02` used by both mask implementations. -/
def edge_width : ℚ := 1 / 50

/-- `center = size / 2` from `create_squircle_mask`. -/
def center (size : ℕ) : ℚ := (size : ℚ) / 2

/-- `radius = size / 2` from `create_squircle_mask`. -/
def radius (size : ℕ) : ℚ := (size : ℚ) / 2

/-- Normalized coordinate `(t - center) / radius` for a pixel index `t`. -/
def normCoord (size t : ℕ) : ℚ := ((t : ℚ) - center size) / radius size

/-- The superellipse implicit value `|nx|^smoothness + |ny|^smoothness`. -/
def squircleValue (size smoothness x y : ℕ) : ℚ :=
  |normCoord size x| ^ smoothness + |normCoord size y| ^ smoothness

/-- Per-pixel value of the scalar mask generator `create_squircle_mask`:
the grid starts at 0, and `putpixel` writes 255 inside the shape and
`int(255 * (edge_distance / 0.02))` in the anti-alias band. -/
def create_squircle_mask (size smoothness x y : ℕ) : ℕ :=
  let value := squircleValue size smoothness x y
  if value ≤ 1 then
    let edge_distance := 1 - value
    if edge_distance > edge_width then 255
    else (⌊(255 : ℚ) * (edge_distance / edge_width)⌋).toNat
  else 0

/-- Per-pixel value of the numpy path in `create_squircle_mask_fast`:
`mask_array` starts at 0, pixels with `inside & ~edge_zone` get 255, and
pixels in `edge_zone` get `(255 * ((1 - value) / edge_width)).astype(np.uint8)`
(truncation toward zero, reduced mod 2^8). -/
def create_squircle_mask_fast (size smoothness x y : ℕ) : ℕ :=
  let value := squircleValue size smoothness x y
  let inside := value ≤ 1
  let edge_zone := 1 - edge_width < value ∧ value ≤ 1
  if inside ∧ ¬ edge_zone then 255
  else if edge_zone then (⌊(255 : ℚ) * ((1 - value) / edge_width)⌋).toNat % 256
  else 0

/-- The opacity policy in the words of spec §4.1: 255 when
`value ≤ 1 - edge_width`, the integer truncation of
`255 * (1 - value) / edge_width` when `1 - edge_width < value ≤ 1`, and 0
when `value > 1` (the truncated quantities are nonnegative, so truncation
coincides with floor). -/
def maskOpacitySpec (value : ℚ) : ℕ :=
  if value ≤ 1 - edge_width then 255
  else if value ≤ 1 then (⌊(255 : ℚ) * ((1 - value) / edge_width)⌋).toNat
  else 0

/-- An RGBA pixel; channel values are 0–255 bytes. -/
structure RGBA where
  r : ℕ
  g : ℕ
  b : ℕ
  a : ℕ

/-- An image: dimensions and a pixel grid (the grid is the function's graph
on `x < width`, `y < height`).  Sources are modelled as already RGBA; the
`convert('RGBA')` step, which synthesizes a fully opaque alpha channel when
the source has none, is the identity here. -/
structure Img where
  width : ℕ
  height : ℕ
  px : ℕ → ℕ → RGBA

/-- `image.crop((left, top, left + size, top + size))`: a `size × size` view
whose pixel `(x, y)` is the source pixel `(left + x, top + y)`. -/
def cropBox (image : Img) (left top size : ℕ) : Img :=
  ⟨size, size, fun x y => image.px (left + x) (top + y)⟩

/-- The square-cropping step of `apply_squircle_mask`: when the image is not
square, center-crop to `size = min(width, height)` with offsets
`(width - size) // 2` and `(height - size) // 2` (Python floor division =
`Nat` division); a square image is passed through unchanged. -/
def squareCropped (image : Img) : Img :=
  let size := min image.width image.height
  if image.width ≠ image.height then
    cropBox image ((image.width - size) / 2) ((image.height - size) / 2) size
  else image

/-- Pillow's `MULDIV255` macro from `libImaging` (`Paste.c`):
`tmp = a * b + 128; result = ((tmp >> 8) + tmp) >> 8` — the approximate
division by 255 used by mask blending. -/
def muldiv255 (a b : ℕ) : ℕ :=
  ((a * b + 128) / 256 + (a * b + 128)) / 256

/-- Pillow's per-pixel `Image.composite(image1, image2, mask)` for
single-channel images: paste of `image1` over `image2` under `mask`, i.e.
`BLEND(mask, in1, in2) = MULDIV255(in1, 255 - mask) + MULDIV255(in2, mask)`
with `in1` the pixel of `image2` and `in2` the pixel of `image1`. -/
def composite_L (im1 im2 mask : ℕ) : ℕ :=
  muldiv255 im2 (255 - mask) + muldiv255 im1 mask

/-- `apply_squircle_mask`: square-crop, build the mask at the cropped size,
and replace the alpha channel by
`Image.composite(a, Image.new('L', (size, size), 0), mask)`; the color
channels are reassembled unchanged. -/
def apply_squircle_mask (image : Img) (smoothness : ℕ) : Img :=
  let size := min image.width image.height
  let cropped := squareCropped image
  Img.mk size size fun x y =>
    let p := cropped.px x y
    let m := create_squircle_mask_fast size smoothness x y
    ⟨p.r, p.g, p.b, composite_L p.a 0 m⟩

/-- The fixed catalog of `(base_size, scale, filename)` tuples from
`generate_icon_set`. -/
def icon_sizes : List (ℕ × ℕ × String) :=
  [(16, 1, "icon_16x16.png"),
   (16, 2, "icon_16x16@2x.png"),
   (32, 1, "icon_32x32.png"),
   (32, 2, "icon_32x32@2x.png"),
   (128, 1, "icon_128x128.png"),
   (128, 2, "icon_128x128@2x.png"),
   (256, 1, "icon_256x256.png"),
   (256, 2, "icon_256x256@2x.png"),
   (512, 1, "icon_512x512.png"),
   (512, 2, "icon_512x512@2x.png")]

/-- The emitter's output per catalog entry: filename together with the pixel
width and height of the written PNG.  The loop computes
`actual_size = base_size * scale` and resizes to
`(actual_size, actual_size)`; PIL's `resize` returns an image of exactly the
requested dimensions. -/
def generate_icon_set_outputs : List (String × ℕ × ℕ) :=
  icon_sizes.map fun t => (t.2.2, t.1 * t.2.1, t.1 * t.2.1)

/-- The filenames written on a successful run, in emission order. -/
def outputFilenames : List String := icon_sizes.map fun t => t.2.2

/-- The fixed ordered candidate list probed by `main` when no explicit source
path is given (paths relative to the script directory). -/
def candidates : List String :=
  ["icon.png",
   "PlaintextPanic/Assets.xcassets/AppIcon.appiconset/icon_512x512@2x.png",
   "PlaintextPanic/Assets.xcassets/AppIcon.appiconset/icon_512x512.png"]

/-- Source-path resolution in `main`: an explicit argument is taken as-is
(existence is checked afterwards); otherwise the first existing candidate,
if any. -/
def resolveSource (argv : List String) (fileExists : String → Bool) :
    Option String :=
  match argv with
  | p :: _ => some p
  | [] => candidates.find? fileExists

/-- Observable outcome of a run: process exit code and the list of output
files written. -/
structure RunResult where
  exitCode : ℕ
  written : List String

/-- Control flow of `main` (plus the module-level Pillow import guard):

* Pillow missing → `sys.exit(1)` before anything else;
* no explicit argument and no candidate exists → `sys.exit(1)`;
* resolved path does not exist → `sys.exit(1)`;
* `Image.open` fails to decode → uncaught exception, exit code 1
  (raised before the output directory or any file is touched);
* otherwise the 10 catalog files are written and the process exits 0.

File-system write failures (disk full, permissions) are outside the model. -/
def main_model (pillowAvailable : Bool) (argv : List String)
    (fileExists decodes : String → Bool) : RunResult :=
  if ¬ pillowAvailable then ⟨1, []⟩
  else
    match resolveSource argv fileExists with
    | none => ⟨1, []⟩
    | some p =>
      if ¬ fileExists p then ⟨1, []⟩
      else if ¬ decodes p then ⟨1, []⟩
      else ⟨0, outputFilenames⟩

/-- The three fatal error classes of spec §7: missing image-decoding
capability, no resolvable source path (no candidate exists, or the resolved
path does not exist), or the source failing to decode. -/
def fatalErrorOccurs (pillowAvailable : Bool) (argv : List String)
    (fileExists decodes : String → Bool) : Prop :=
  pillowAvailable = false ∨
  resolveSource argv fileExists = none ∨
  ∃ p, resolveSource argv fileExists = some p ∧
    (fileExists p = false ∨ decodes p = false)

/-! ## Helper lemmas -/

theorem edge_width_pos : (0 : ℚ) < edge_width := by norm_num [edge_width]

/-- The scalar mask generator realizes the three-case opacity policy of
spec §4.1 (the boundary `value = 1 - edge_width` lands in the code's
anti-alias branch, where the interpolation evaluates to 255 as well). -/
theorem create_squircle_mask_eq_spec (size smoothness x y : ℕ) :
    create_squircle_mask size smoothness x y =
      maskOpacitySpec (squircleValue size smoothness x y) := by
  simp only [create_squircle_mask, maskOpacitySpec]
  set v := squircleValue size smoothness x y with hv
  by_cases h1 : v ≤ 1
  · by_cases h2 : 1 - v > edge_width
    · rw [if_pos h1, if_pos h2, if_pos (by linarith : v ≤ 1 - edge_width)]
    · rw [if_pos h1, if_neg h2]
      by_cases h3 : v ≤ 1 - edge_width
      · have hveq : v = 1 - edge_width := by
          have h4 : 1 - v ≤ edge_width := not_lt.mp h2
          linarith
        rw [if_pos h3, hveq]
        norm_num [edge_width]
        decide
      · rw [if_neg h3, if_pos h1]
  · have h2 : ¬ v ≤ 1 - edge_width := by
      have := edge_width_pos
      intro h; exact h1 (by linarith)
    rw [if_neg h1, if_neg h2, if_neg h1]

/-- The numpy mask path realizes the same three-case opacity policy; in the
anti-alias band the value written is below 256, so the `uint8` reduction is
the identity. -/
theorem create_squircle_mask_fast_eq_spec (size smoothness x y : ℕ) :
    create_squircle_mask_fast size smoothness x y =
      maskOpacitySpec (squircleValue size smoothness x y) := by
  simp only [create_squircle_mask_fast, maskOpacitySpec]
  set v := squircleValue size smoothness x y with hv
  by_cases h1 : v ≤ 1
  · by_cases h2 : 1 - edge_width < v
    · rw [if_neg (by tauto), if_pos ⟨h2, h1⟩, if_neg (not_le.mpr h2), if_pos h1]
      apply Nat.mod_eq_of_lt
      have hlt : (1 - v) / edge_width < 1 := by
        rw [div_lt_one edge_width_pos]
        linarith
      have hub : ⌊(255 : ℚ) * ((1 - v) / edge_width)⌋ < 255 := by
        apply Int.floor_lt.mpr
        push_cast
        linarith
      omega
    · rw [if_pos ⟨h1, by tauto⟩, if_pos (by linarith [not_lt.mp h2])]
  · have h2 : ¬ v ≤ 1 - edge_width := by
      have := edge_width_pos
      intro h; exact h1 (by linarith)
    rw [if_neg (by tauto), if_neg (by tauto), if_neg h2, if_neg h1]

/-- The opacity policy is non-increasing in the superellipse value. -/
theorem maskOpacitySpec_antitone {v w : ℚ} (h : v ≤ w) :
    maskOpacitySpec w ≤ maskOpacitySpec v := by
  unfold maskOpacitySpec
  by_cases hw1 : w ≤ 1 - edge_width
  · rw [if_pos hw1, if_pos (le_trans h hw1)]
  · rw [if_neg hw1]
    by_cases hw2 : w ≤ 1
    · rw [if_pos hw2]
      by_cases hv1 : v ≤ 1 - edge_width
      · rw [if_pos hv1]
        have hdle : (1 - w) / edge_width ≤ 1 := by
          rw [div_le_one edge_width_pos]
          linarith [not_le.mp hw1]
        have h255 : ⌊(255 : ℚ) * ((1 - w) / edge_width)⌋ ≤ 255 := by
          have : ⌊(255 : ℚ) * ((1 - w) / edge_width)⌋ ≤ ⌊(255 : ℚ)⌋ :=
            Int.floor_le_floor (by linarith)
          simpa using this
        omega
      · rw [if_neg hv1, if_pos (le_trans h hw2)]
        apply Int.toNat_le_toNat
        apply Int.floor_le_floor
        have hmono : (1 - w) / edge_width ≤ (1 - v) / edge_width := by
          gcongr
          linarith
        linarith
    · rw [if_neg hw2]
      exact Nat.zero_le _

/-- `normCoord` written over a common denominator, with the numerator's
absolute value as a natural number. -/
theorem absNormCoord (size x : ℕ) (hs : 0 < size) :
    |normCoord size x| = ((2 * (x : ℤ) - size).natAbs : ℚ) / size := by
  have hs' : ((size : ℚ)) ≠ 0 := Nat.cast_ne_zero.mpr hs.ne'
  unfold normCoord center radius
  have h1 : ((x : ℚ) - size / 2) / (size / 2) = (2 * x - size) / size := by
    field_simp
    ring
  rw [h1, abs_div, abs_of_nonneg (by positivity : (0 : ℚ) ≤ (size : ℚ))]
  congr 1
  rw [Int.cast_natAbs]
  push_cast
  ring_nf

/-- Stepping one move of `dx` further out along a ray started at the center
column `c` (where `2c = size` or `2c = size - 1`) does not decrease the
numerator `|2x - size|`. -/
theorem natAbs_ray_step (s : ℕ) (c dx : ℤ) (k : ℕ)
    (hc : 2 * c = s ∨ 2 * c = (s : ℤ) - 1) :
    (2 * (c + k * dx) - s).natAbs ≤ (2 * (c + (k + 1) * dx) - s).natAbs := by
  have hstep : 2 * (c + ((k : ℤ) + 1) * dx) - s
      = 2 * (c + (k : ℤ) * dx) - s + 2 * dx := by ring
  rw [hstep]
  rcases le_or_lt 0 dx with hdx | hdx
  · have ha : 0 ≤ (k : ℤ) * dx := mul_nonneg (Int.natCast_nonneg k) hdx
    generalize (k : ℤ) * dx = a at ha ⊢
    omega
  · have ha : (k : ℤ) * dx ≤ 0 :=
      mul_nonpos_iff.mpr (Or.inl ⟨Int.natCast_nonneg k, hdx.le⟩)
    generalize (k : ℤ) * dx = a at ha ⊢
    omega

/-- Along a discrete ray started at the center pixel `(size/2, size/2)` with
integer direction `(dx, dy)`, the mask opacity does not increase from step
`k` to step `k + 1`. -/
theorem mask_ray_step_le (size : ℕ) (hs : 0 < size) (dx dy : ℤ) (k : ℕ)
    (x y x' y' : ℕ)
    (hx : (x : ℤ) = ((size / 2 : ℕ) : ℤ) + k * dx)
    (hy : (y : ℤ) = ((size / 2 : ℕ) : ℤ) + k * dy)
    (hx' : (x' : ℤ) = ((size / 2 : ℕ) : ℤ) + (k + 1) * dx)
    (hy' : (y' : ℤ) = ((size / 2 : ℕ) : ℤ) + (k + 1) * dy) :
    create_squircle_mask size 5 x' y' ≤ create_squircle_mask size 5 x y := by
  rw [create_squircle_mask_eq_spec, create_squircle_mask_eq_spec]
  apply maskOpacitySpec_antitone
  have hc : 2 * ((size / 2 : ℕ) : ℤ) = size ∨
      2 * ((size / 2 : ℕ) : ℤ) = (size : ℤ) - 1 := by omega
  have hcast : (0 : ℚ) < (size : ℚ) := by exact_mod_cast hs
  have hxa : |normCoord size x| ≤ |normCoord size x'| := by
    rw [absNormCoord _ _ hs, absNormCoord _ _ hs]
    rw [div_le_div_iff_of_pos_right hcast]
    have := natAbs_ray_step size ((size / 2 : ℕ) : ℤ) dx k hc
    rw [← hx, ← hx'] at this
    exact_mod_cast this
  have hya : |normCoord size y| ≤ |normCoord size y'| := by
    rw [absNormCoord _ _ hs, absNormCoord _ _ hs]
    rw [div_le_div_iff_of_pos_right hcast]
    have := natAbs_ray_step size ((size / 2 : ℕ) : ℤ) dy k hc
    rw [← hy, ← hy'] at this
    exact_mod_cast this
  unfold squircleValue
  exact add_le_add (pow_le_pow_left₀ (abs_nonneg _) hxa 5)
    (pow_le_pow_left₀ (abs_nonneg _) hya 5)

/-- The normalized coordinate of pixel column 0 is exactly `-1`. -/
theorem normCoord_zero (size : ℕ) (hs : 0 < size) : normCoord size 0 = -1 := by
  have hs' : ((size : ℚ)) ≠ 0 := Nat.cast_ne_zero.mpr hs.ne'
  unfold normCoord center radius
  field_simp
  ring

/-- The superellipse value at the corner pixel `(0, 0)` is exactly 2. -/
theorem squircleValue_corner (size : ℕ) (hs : 0 < size) :
    squircleValue size 5 0 0 = 2 := by
  unfold squircleValue
  rw [normCoord_zero size hs]
  norm_num

/-- Reflecting a coordinate through the continuous center `size / 2` negates
the normalized coordinate. -/
theorem normCoord_reflect (size x : ℕ) (hx : x ≤ size) :
    normCoord size (size - x) = - normCoord size x := by
  unfold normCoord center radius
  rw [Nat.cast_sub hx, ← neg_div]
  congr 1
  ring

/-- For `size ≥ 2` the center pixel `(size/2, size/2)` has superellipse value
at most `1/16` (value 0 for even sizes, `2/size^5` for odd ones). -/
theorem squircleValue_center_le (size : ℕ) (hs : 2 ≤ size) :
    squircleValue size 5 (size / 2) (size / 2) ≤ 1 / 16 := by
  have hs0 : 0 < size := by omega
  have h1 : |normCoord size (size / 2)| ≤ 1 / 2 := by
    rw [absNormCoord _ _ hs0]
    have hn : (2 * ((size / 2 : ℕ) : ℤ) - size).natAbs ≤ 1 := by omega
    rw [div_le_div_iff₀ (by exact_mod_cast hs0) (by norm_num)]
    have hnq : (((2 * ((size / 2 : ℕ) : ℤ) - size).natAbs : ℕ) : ℚ) ≤ 1 := by
      exact_mod_cast hn
    have hsq : (2 : ℚ) ≤ (size : ℚ) := by exact_mod_cast hs
    linarith
  have h2 : |normCoord size (size / 2)| ^ 5 ≤ (1 / 2 : ℚ) ^ 5 :=
    pow_le_pow_left₀ (abs_nonneg _) h1 5
  unfold squircleValue
  norm_num at h2 ⊢
  linarith

/-- `MULDIV255` with a zero input is zero. -/
theorem muldiv255_zero_left (b : ℕ) : muldiv255 0 b = 0 := by
  simp [muldiv255]

/-- Over the byte range, `MULDIV255` is exactly division by 255 rounded to
the nearest integer (halves rounding up): `(2ab + 255) / 510 = ⌊ab/255 + 1/2⌋`. -/
theorem muldiv255_round (a b : ℕ) (ha : a ≤ 255) (hb : b ≤ 255) :
    muldiv255 a b = (2 * (a * b) + 255) / 510 := by
  have h : a * b ≤ 255 * 255 := Nat.mul_le_mul ha hb
  unfold muldiv255
  generalize a * b = t at h ⊢
  omega

/-- `MULDIV255 a b ≤ a` whenever `b ≤ 255`: blending against zero can only
shrink a channel value. -/
theorem muldiv255_le_left (a b : ℕ) (hb : b ≤ 255) : muldiv255 a b ≤ a := by
  have h : a * b ≤ a * 255 := Nat.mul_le_mul_left a hb
  unfold muldiv255
  generalize a * b = t at h ⊢
  omega

/-- Every pixel of the fast mask is a byte. -/
theorem create_squircle_mask_fast_le (size smoothness x y : ℕ) :
    create_squircle_mask_fast size smoothness x y ≤ 255 := by
  simp only [create_squircle_mask_fast]
  split_ifs <;> omega

/-- The output alpha of `apply_squircle_mask` at a pixel, unfolded to the
`MULDIV255` blend of the cropped source alpha against zero. -/
theorem apply_alpha_eq (image : Img) (smoothness x y : ℕ) :
    ((apply_squircle_mask image smoothness).px x y).a =
      muldiv255 ((squareCropped image).px x y).a
        (create_squircle_mask_fast (min image.width image.height)
          smoothness x y) := by
  simp only [apply_squircle_mask, composite_L, muldiv255_zero_left, Nat.zero_add]

/-! ## Claims -/

/-- **C1.** For every integer `size > 0` and the default smoothness 5, each
pixel `(x, y)` of the `size × size` mask grid, with
`nx = (x - size/2) / (size/2)`, `ny = (y - size/2) / (size/2)` and
`value = |nx|^5 + |ny|^5`, has opacity 255 when `value ≤ 1 - 0.02`, the
integer truncation of `255 * (1 - value) / 0.02` when
`1 - 0.02 < value ≤ 1`, and 0 when `value > 1`. -/
theorem C1_mask_opacity_policy (size x y : ℕ) (hs : 0 < size)
    (hx : x < size) (hy : y < size) :
    create_squircle_mask size 5 x y =
      maskOpacitySpec (squircleValue size 5 x y) :=
  create_squircle_mask_eq_spec size 5 x y

theorem C1_mask_opacity_policy_witness :
    0 < 4 ∧ 3 < 4 ∧ 2 < 4 ∧
      create_squircle_mask 4 5 3 2 = maskOpacitySpec (squircleValue 4 5 3 2) :=
  ⟨by decide, by decide, by decide,
   C1_mask_opacity_policy 4 3 2 (by decide) (by decide) (by decide)⟩

/-- **C6.** For every size and every (natural-number) smoothness, the
bulk-array (numpy) mask implementation agrees pixel-for-pixel with the
scalar double-loop implementation. -/
theorem C6_fast_mask_eq_scalar_mask (size smoothness x y : ℕ) :
    create_squircle_mask_fast size smoothness x y =
      create_squircle_mask size smoothness x y := by
  rw [create_squircle_mask_fast_eq_spec, create_squircle_mask_eq_spec]

/-- **C3.** On a successful run the emitter writes exactly 10 PNG files, in
catalog order, named `icon_<base>x<base>.png` (scale 1) or
`icon_<base>x<base>@2x.png` (scale 2), each with pixel dimensions
`base_size * scale` square. -/
theorem C3_output_catalog :
    generate_icon_set_outputs =
      [("icon_16x16.png", 16, 16), ("icon_16x16@2x.png", 32, 32),
       ("icon_32x32.png", 32, 32), ("icon_32x32@2x.png", 64, 64),
       ("icon_128x128.png", 128, 128), ("icon_128x128@2x.png", 256, 256),
       ("icon_256x256.png", 256, 256), ("icon_256x256@2x.png", 512, 512),
       ("icon_512x512.png", 512, 512), ("icon_512x512@2x.png", 1024, 1024)] ∧
    generate_icon_set_outputs.length = 10 := by
  constructor <;> rfl

/-- **C4 (counterexample).** The mask is *not* invariant under mirroring or
90° rotation of the pixel grid: at size 4, pixel `(0, 2)` has opacity 0 but
its horizontal mirror image `(3, 2)` has opacity 255; pixel `(2, 0)` has
opacity 0 but its 90°-rotation image `(3, 2)` has opacity 255. -/
theorem C4_symmetry_counterexample :
    create_squircle_mask 4 5 0 2 ≠ create_squircle_mask 4 5 3 2 ∧
    create_squircle_mask 4 5 2 0 ≠ create_squircle_mask 4 5 3 2 := by
  have h1 : create_squircle_mask 4 5 0 2 = 0 := by
    norm_num [create_squircle_mask, squircleValue, normCoord, center, radius,
      edge_width, abs_of_nonneg, abs_of_nonpos]
  have h2 : create_squircle_mask 4 5 3 2 = 255 := by
    norm_num [create_squircle_mask, squircleValue, normCoord, center, radius,
      edge_width, abs_of_nonneg, abs_of_nonpos]
  have h3 : create_squircle_mask 4 5 2 0 = 0 := by
    norm_num [create_squircle_mask, squircleValue, normCoord, center, radius,
      edge_width, abs_of_nonneg, abs_of_nonpos]
  exact ⟨by omega, by omega⟩

/-- **C4 (amended).** The sampling grid is offset half a pixel from the
formula's center `size/2`, so the pixel-grid mirrorings `x ↦ size-1-x` and
90° rotations do not preserve the mask.  What does hold: the mask is
invariant under swapping `x` and `y` (diagonal mirror), and under the
point reflections `x ↦ size - x` and `y ↦ size - y` through the continuous
center `size/2`. -/
theorem C4_mask_symmetry_amended (size x y : ℕ) (hx : x ≤ size)
    (hy : y ≤ size) :
    create_squircle_mask size 5 x y = create_squircle_mask size 5 y x ∧
    create_squircle_mask size 5 (size - x) y =
      create_squircle_mask size 5 x y ∧
    create_squircle_mask size 5 x (size - y) =
      create_squircle_mask size 5 x y := by
  refine ⟨?_, ?_, ?_⟩ <;>
    rw [create_squircle_mask_eq_spec, create_squircle_mask_eq_spec]
  · congr 1
    unfold squircleValue
    exact add_comm _ _
  · congr 1
    unfold squircleValue
    rw [normCoord_reflect size x hx, abs_neg]
  · congr 1
    unfold squircleValue
    rw [normCoord_reflect size y hy, abs_neg]

theorem C4_mask_symmetry_amended_witness :
    1 ≤ 4 ∧ 2 ≤ 4 ∧
    (create_squircle_mask 4 5 1 2 = create_squircle_mask 4 5 2 1 ∧
     create_squircle_mask 4 5 (4 - 1) 2 = create_squircle_mask 4 5 1 2 ∧
     create_squircle_mask 4 5 1 (4 - 2) = create_squircle_mask 4 5 1 2) :=
  ⟨by decide, by decide,
   C4_mask_symmetry_amended 4 1 2 (by decide) (by decide)⟩

/-- **C5 (counterexample).** At `size = 1` the center pixel
`(size/2, size/2) = (0, 0)` coincides with the corner; its superellipse
value is 2, so its opacity is 0, not 255. -/
theorem C5_center_counterexample :
    create_squircle_mask 1 5 (1 / 2) (1 / 2) ≠ 255 := by
  norm_num [create_squircle_mask, squircleValue, normCoord, center, radius,
    edge_width, abs_of_nonneg, abs_of_nonpos]

/-- **C5 (amended).** For every `size > 0` and smoothness 5 the corner pixel
`(0, 0)` has opacity 0, and for every `size ≥ 2` the center pixel
`(size/2, size/2)` has opacity 255 (at `size = 1` the single pixel is both
center and corner and has opacity 0). -/
theorem C5_center_corner_amended (size : ℕ) (hs : 0 < size) :
    create_squircle_mask size 5 0 0 = 0 ∧
    (2 ≤ size → create_squircle_mask size 5 (size / 2) (size / 2) = 255) := by
  constructor
  · rw [create_squircle_mask_eq_spec, squircleValue_corner size hs]
    norm_num [maskOpacitySpec, edge_width]
  · intro h2
    rw [create_squircle_mask_eq_spec]
    have hv := squircleValue_center_le size h2
    have hle : squircleValue size 5 (size / 2) (size / 2) ≤ 1 - edge_width := by
      have : (1 : ℚ) / 16 ≤ 1 - edge_width := by norm_num [edge_width]
      linarith
    unfold maskOpacitySpec
    rw [if_pos hle]

theorem C5_center_corner_amended_witness :
    0 < 3 ∧
    (create_squircle_mask 3 5 0 0 = 0 ∧
     (2 ≤ 3 → create_squircle_mask 3 5 (3 / 2) (3 / 2) = 255)) :=
  ⟨by decide, C5_center_corner_amended 3 (by decide)⟩

/-- **C8.** For every `size > 0` with smoothness 5, along any ray of pixels
started at the center pixel `(size/2, size/2)` with integer direction
`(dx, dy)`, each pixel one step farther out has opacity less than or equal
to the previous one. -/
theorem C8_ray_opacity_nonincreasing (size : ℕ) (hs : 0 < size)
    (dx dy : ℤ) (k : ℕ) (x y x' y' : ℕ)
    (hxb : x < size) (hyb : y < size) (hxb' : x' < size) (hyb' : y' < size)
    (hx : (x : ℤ) = ((size / 2 : ℕ) : ℤ) + k * dx)
    (hy : (y : ℤ) = ((size / 2 : ℕ) : ℤ) + k * dy)
    (hx' : (x' : ℤ) = ((size / 2 : ℕ) : ℤ) + (k + 1) * dx)
    (hy' : (y' : ℤ) = ((size / 2 : ℕ) : ℤ) + (k + 1) * dy) :
    create_squircle_mask size 5 x' y' ≤ create_squircle_mask size 5 x y :=
  mask_ray_step_le size hs dx dy k x y x' y' hx hy hx' hy'

theorem C8_ray_opacity_nonincreasing_witness :
    0 < 4 ∧ 2 < 4 ∧ 3 < 4 ∧
    ((2 : ℕ) : ℤ) = ((4 / 2 : ℕ) : ℤ) + ((0 : ℕ) : ℤ) * 1 ∧
    ((3 : ℕ) : ℤ) = ((4 / 2 : ℕ) : ℤ) + (((0 : ℕ) : ℤ) + 1) * 1 ∧
    create_squircle_mask 4 5 3 2 ≤ create_squircle_mask 4 5 2 2 :=
  ⟨by decide, by decide, by decide, by decide, by decide,
   C8_ray_opacity_nonincreasing 4 (by decide) 1 0 0 2 2 3 2
     (by decide) (by decide) (by decide) (by decide)
     (by decide) (by decide) (by decide) (by decide)⟩

/-- **C2.** The Mask Applicator's output alpha is the composite of the
cropped source alpha against zero with the mask as blend weight: it equals
the source alpha where the mask is 255, equals 0 where the mask is 0, and in
general is the source alpha scaled by `mask/255` (Pillow's `MULDIV255`
blend, which is the scaled product rounded to the nearest integer,
`(2·a·m + 255) / 510`). -/
theorem C2_alpha_composite (image : Img) (smoothness x y : ℕ)
    (ha : ((squareCropped image).px x y).a ≤ 255) :
    (create_squircle_mask_fast (min image.width image.height) smoothness x y
        = 255 →
      ((apply_squircle_mask image smoothness).px x y).a =
        ((squareCropped image).px x y).a) ∧
    (create_squircle_mask_fast (min image.width image.height) smoothness x y
        = 0 →
      ((apply_squircle_mask image smoothness).px x y).a = 0) ∧
    ((apply_squircle_mask image smoothness).px x y).a =
      (2 * (((squareCropped image).px x y).a *
        create_squircle_mask_fast (min image.width image.height)
          smoothness x y) + 255) / 510 := by
  set a := ((squareCropped image).px x y).a with hadef
  set m := create_squircle_mask_fast (min image.width image.height)
    smoothness x y with hm
  have hml : m ≤ 255 := create_squircle_mask_fast_le _ _ _ _
  have hout : ((apply_squircle_mask image smoothness).px x y).a =
      muldiv255 a m := apply_alpha_eq image smoothness x y
  rw [hout, muldiv255_round a m ha hml]
  refine ⟨fun h => ?_, fun h => ?_, rfl⟩
  · rw [h]; omega
  · rw [h]; omega

theorem C2_alpha_composite_witness :
    ((squareCropped (Img.mk 2 2 fun _ _ => ⟨10, 20, 30, 200⟩)).px 0 0).a
        ≤ 255 ∧
    ((apply_squircle_mask (Img.mk 2 2 fun _ _ => ⟨10, 20, 30, 200⟩) 5).px
        0 0).a =
      (2 * (((squareCropped (Img.mk 2 2 fun _ _ => ⟨10, 20, 30, 200⟩)).px
          0 0).a *
        create_squircle_mask_fast
          (min (Img.mk 2 2 fun _ _ => ⟨10, 20, 30, 200⟩ : Img).width
            (Img.mk 2 2 fun _ _ => ⟨10, 20, 30, 200⟩ : Img).height)
          5 0 0) + 255) / 510 :=
  ⟨by decide,
   (C2_alpha_composite (Img.mk 2 2 fun _ _ => ⟨10, 20, 30, 200⟩) 5 0 0
     (by decide)).2.2⟩

/-- **C9.** Applying the Mask Applicator to an already-square image keeps
the width and height and leaves the R, G, B channels pointwise unchanged;
only the alpha channel differs. -/
theorem C9_square_input_frame (image : Img) (smoothness : ℕ)
    (hsq : image.width = image.height) :
    (apply_squircle_mask image smoothness).width = image.width ∧
    (apply_squircle_mask image smoothness).height = image.height ∧
    ∀ x y,
      ((apply_squircle_mask image smoothness).px x y).r = (image.px x y).r ∧
      ((apply_squircle_mask image smoothness).px x y).g = (image.px x y).g ∧
      ((apply_squircle_mask image smoothness).px x y).b = (image.px x y).b := by
  have hcrop : squareCropped image = image := by
    unfold squareCropped
    rw [if_neg (by simp [hsq])]
  refine ⟨?_, ?_, fun x y => ⟨?_, ?_, ?_⟩⟩ <;>
    simp [apply_squircle_mask, hcrop, hsq]

theorem C9_square_input_frame_witness :
    (Img.mk 2 2 fun _ _ => (⟨1, 2, 3, 4⟩ : RGBA)).width =
      (Img.mk 2 2 fun _ _ => (⟨1, 2, 3, 4⟩ : RGBA)).height ∧
    (apply_squircle_mask (Img.mk 2 2 fun _ _ => (⟨1, 2, 3, 4⟩ : RGBA))
        5).width =
      (Img.mk 2 2 fun _ _ => (⟨1, 2, 3, 4⟩ : RGBA)).width :=
  ⟨rfl,
   (C9_square_input_frame (Img.mk 2 2 fun _ _ => (⟨1, 2, 3, 4⟩ : RGBA))
     5 rfl).1⟩

/-- **C10.** For every input image and every pixel, the output alpha of the
Mask Applicator is at most the alpha of the cropped source at that pixel:
masking can only reduce opacity. -/
theorem C10_masking_shrinks_alpha (image : Img) (smoothness x y : ℕ) :
    ((apply_squircle_mask image smoothness).px x y).a ≤
      ((squareCropped image).px x y).a := by
  rw [apply_alpha_eq]
  exact muldiv255_le_left _ _ (create_squircle_mask_fast_le _ _ _ _)

/-- **C7.** Whenever one of the three fatal error classes occurs — missing
image-decoding capability, no resolvable source path, or the source failing
to decode — the tool terminates with a non-zero exit status having written
zero output files; otherwise it completes the full 10-file set. -/
theorem C7_fatal_errors_write_nothing (pillowAvailable : Bool)
    (argv : List String) (fileExists decodes : String → Bool) :
    (fatalErrorOccurs pillowAvailable argv fileExists decodes →
      (main_model pillowAvailable argv fileExists decodes).exitCode ≠ 0 ∧
      (main_model pillowAvailable argv fileExists decodes).written = []) ∧
    (¬ fatalErrorOccurs pillowAvailable argv fileExists decodes →
      (main_model pillowAvailable argv fileExists decodes).exitCode = 0 ∧
      (main_model pillowAvailable argv fileExists decodes).written =
        outputFilenames ∧
      (main_model pillowAvailable argv fileExists decodes).written.length
        = 10) := by
  cases pillowAvailable with
  | false =>
    refine ⟨fun _ => ⟨by simp [main_model], by simp [main_model]⟩, fun h => ?_⟩
    exact absurd (Or.inl rfl) h
  | true =>
    rcases hres : resolveSource argv fileExists with _ | p
    · refine ⟨fun _ => ⟨by simp [main_model, hres], by simp [main_model, hres]⟩,
        fun h => ?_⟩
      exact absurd (Or.inr (Or.inl hres)) h
    · by_cases hfe : fileExists p = true
      · by_cases hdec : decodes p = true
        · have hmm : main_model true argv fileExists decodes =
              ⟨0, outputFilenames⟩ := by
            simp [main_model, hres, hfe, hdec]
          refine ⟨fun h => ?_, fun _ => ?_⟩
          · exfalso
            rcases h with h | h | ⟨q, hq, hq'⟩
            · simp at h
            · rw [hres] at h; simp at h
            · rw [hres] at hq
              injection hq with hq
              subst hq
              rcases hq' with h' | h'
              · rw [hfe] at h'; simp at h'
              · rw [hdec] at h'; simp at h'
          · rw [hmm]
            exact ⟨rfl, rfl, rfl⟩
        · have hdec' : decodes p = false := by
            simpa using hdec
          have hmm : main_model true argv fileExists decodes = ⟨1, []⟩ := by
            simp [main_model, hres, hfe, hdec']
          refine ⟨fun _ => ?_, fun h => ?_⟩
          · rw [hmm]
            exact ⟨by simp, rfl⟩
          · exact absurd (Or.inr (Or.inr ⟨p, hres, Or.inr hdec'⟩)) h
      · have hfe' : fileExists p = false := by
          simpa using hfe
        have hmm : main_model true argv fileExists decodes = ⟨1, []⟩ := by
          simp [main_model, hres, hfe']
        refine ⟨fun _ => ?_, fun h => ?_⟩
        · rw [hmm]
          exact ⟨by simp, rfl⟩
        · exact absurd (Or.inr (Or.inr ⟨p, hres, Or.inl hfe'⟩)) h

theorem C7_fatal_errors_write_nothing_witness :
    (main_model true ["missing.png"] (fun _ => false)
      (fun _ => false)).exitCode ≠ 0 ∧
    (main_model true ["missing.png"] (fun _ => false)
      (fun _ => false)).written = [] :=
  (C7_fatal_errors_write_nothing true ["missing.png"] (fun _ => false)
    (fun _ => false)).1
    (Or.inr (Or.inr ⟨"missing.png", rfl, Or.inl rfl⟩))
